import Mathlib

/-!
# Verification of the annalysis_pro frame-sampling and analysis-cache core

Shallow embedding of the repository's frame-extraction pipeline
(`services/videoProcessing.ts`), analysis cache (`services/cacheService.ts`),
video hashing (`generateVideoHash`) and AI-response normalization
(`services/geminiService.ts`), together with theorems settling the spec's
claims about them.

Conventions of the embedding:
* JS `number` values that hold durations, timestamps-in-seconds and aspect
  ratios are modelled as `ℚ`; pixel dimensions and frame counts as `ℤ`;
  wall-clock instants (`Date` values) as `ℤ` milliseconds since the epoch.
* `localStorage.setItem` may fail; its outcomes are supplied by an explicit
  oracle list (`SetOutcome`), one entry consumed per call; an empty oracle
  means every further write succeeds.
* `JSON.parse` of the AI response is modelled by an `Option` argument
  (`none` = the string is not parsable as JSON), and the platform
  SHA-256 digest by an explicit `digestFn` argument constrained to return
  32 bytes, since both are platform facilities external to the repository.
-/

/-! ## Definitions: frame sampling (`services/videoProcessing.ts`) -/

/-- Embeds `getAdaptiveFrameCount` (videoProcessing.ts lines 23-29):
duration-bucketed frame count. -/
def getAdaptiveFrameCount (duration : ℚ) : ℤ :=
  if duration ≤ 30 then 5
  else if duration ≤ 60 then 8
  else if duration ≤ 180 then 10
  else if duration ≤ 600 then 12
  else 15

/-- Embeds line 66, `config.numFrames || getAdaptiveFrameCount(duration)`:
a zero (falsy) explicit count falls back to the adaptive policy. -/
def chooseCount (numFrames : ℤ) (duration : ℚ) : ℤ :=
  if numFrames = 0 then getAdaptiveFrameCount duration else numFrames

/-- Embeds lines 71-75 of `extractFrames`: `step = duration / (count + 1)`,
and for `i = 1..count` the captured timestamp `min(i * step, duration - 0.1)`. -/
def sampleTimestamps (duration : ℚ) (n : ℕ) : List ℚ :=
  (List.range n).map (fun i : ℕ =>
    min (((i : ℚ) + 1) * (duration / ((n : ℚ) + 1))) (duration - 1/10))

/-- Outcome of one seek-and-capture step: the `onseeked` handler either pushes
an encoded frame or throws inside the `try` block (lines 95-143). -/
inductive CaptureOutcome
  | ok (frame : String)
  | err
deriving DecidableEq

/-- Result of the `extractFrames` promise. -/
inductive ExtractResult
  | resolved (frames : List String)
  | rejected (msg : String)
deriving DecidableEq

/-- Embeds the capture loop (`captureNextFrame` / `onseeked`, lines 82-144):
each outcome either appends its frame to the accumulator or is skipped
(`catch` path increments the index and continues); when the timestamps are
exhausted the accumulated list is resolved. -/
def captureLoop : List CaptureOutcome → List String → List String
  | [], acc => acc
  | CaptureOutcome.ok f :: rest, acc => captureLoop rest (acc ++ [f])
  | CaptureOutcome.err :: rest, acc => captureLoop rest acc

/-- Embeds the control flow of `extractFrames` (lines 38-164) on the normal
path: `metadata = none` models the `onerror` load failure; a zero duration is
rejected (line 59; non-finite durations have no `ℚ` counterpart and are
subsumed by the `none` case); the count is chosen per line 66, a non-positive
count is rejected (line 78), and otherwise one capture outcome is consumed per
timestamp and the collected frames are resolved (line 87). -/
def extractFrames (metadata : Option ℚ) (numFrames : ℤ)
    (outcomes : List CaptureOutcome) : ExtractResult :=
  match metadata with
  | none => ExtractResult.rejected "video load failed"
  | some duration =>
    if duration = 0 then ExtractResult.rejected "metadata"
    else if 0 < chooseCount numFrames duration then
      ExtractResult.resolved
        (captureLoop (outcomes.take (chooseCount numFrames duration).toNat) [])
    else
      ExtractResult.rejected "frame count must be positive"

/-- The per-frame selector of the `onseeked` handler: a successful capture
contributes its frame, a caught per-frame failure contributes nothing. -/
def pickFrame : CaptureOutcome → Option String
  | CaptureOutcome.ok f => some f
  | CaptureOutcome.err => none

/-- JavaScript `Math.round`: round half toward positive infinity. -/
def jsRound (q : ℚ) : ℤ := ⌊q + 1/2⌋

/-- Embeds the resize logic of the `onseeked` handler (videoProcessing.ts
lines 98-114): if either dimension exceeds `maxSize`, the longer side is set
to `maxSize` and the other is `Math.round`ed from the aspect ratio
`aspectRatio = width / height`; otherwise the dimensions pass unchanged. -/
def resizeDimensions (maxSize w h : ℤ) : ℤ × ℤ :=
  if maxSize < w ∨ maxSize < h then
    if h < w then
      (maxSize, jsRound ((maxSize : ℚ) / ((w : ℚ) / (h : ℚ))))
    else
      (jsRound ((maxSize : ℚ) * ((w : ℚ) / (h : ℚ))), maxSize)
  else (w, h)

/-! ## Definitions: structured analysis record (`services/geminiService.ts`) -/

/-- Embeds the `StructuredVideoAnalysis` interface (geminiService.ts): eight
text fields, the seven structured ones holding serialized JSON. -/
structure StructuredVideoAnalysis where
  summary : String
  objects : String
  people : String
  actions : String
  textContent : String
  audioContext : String
  technicalAspects : String
  metadata : String
deriving DecidableEq

/-- Embeds the degraded record built in the `catch (parseError)` branch of
`generateStructuredVideoAnalysis`: the raw response text becomes the summary,
array-valued fields default to `"[]"`, object-valued ones to `"{}"`. -/
def degradedAnalysis (textOutput : String) : StructuredVideoAnalysis :=
  { summary := textOutput
    objects := "[]"
    people := "[]"
    actions := "[]"
    textContent := "[]"
    audioContext := "{}"
    technicalAspects := "{}"
    metadata := "{}" }

/-- Embeds the response-normalization step of
`generateStructuredVideoAnalysis` (geminiService.ts lines 393-410):
`parsed` is the result of `JSON.parse(textOutput)` (`none` when the text is
not parsable as JSON, in which case the thrown parse error is caught and the
degraded record returned). -/
def normalizeAnalysisResponse (textOutput : String)
    (parsed : Option StructuredVideoAnalysis) : StructuredVideoAnalysis :=
  match parsed with
  | some p => p
  | none => degradedAnalysis textOutput

/-! ## Definitions: analysis cache (`services/cacheService.ts`) -/

/-- Embeds the `CachedAnalysis` interface (cacheService.ts lines 4-12). -/
structure CachedAnalysis where
  videoHash : String
  videoFileName : String
  videoSize : ℕ
  videoDuration : ℚ
  analysis : StructuredVideoAnalysis
  cachedAt : ℤ
  expiresAt : ℤ
deriving DecidableEq

/-- One outcome of a `localStorage.setItem` call: success, a
`QuotaExceededError` `DOMException`, or any other exception. -/
inductive SetOutcome
  | ok
  | quota
  | other
deriving DecidableEq

/-- The backing store: the currently persisted entry list plus the oracle of
outcomes for future `setItem` calls (empty oracle = all writes succeed). -/
structure CacheStorage where
  persisted : List CachedAnalysis
  outcomes : List SetOutcome
deriving DecidableEq

/-- `localStorage.setItem(CACHE_KEY, JSON.stringify(data))`: on success the
persisted list is replaced; on failure it is untouched and the thrown
exception kind is returned. -/
def setItem (st : CacheStorage) (data : List CachedAnalysis) :
    CacheStorage × Option SetOutcome :=
  match st.outcomes with
  | [] => (⟨data, []⟩, none)
  | SetOutcome.ok :: rest => (⟨data, rest⟩, none)
  | SetOutcome.quota :: rest => (⟨st.persisted, rest⟩, some SetOutcome.quota)
  | SetOutcome.other :: rest => (⟨st.persisted, rest⟩, some SetOutcome.other)

def msPerDay : ℤ := 86400000

/-- The entries `clearOldCache(daysToKeep)` keeps (cacheService.ts lines
183-190): those with `cachedAt >= now - daysToKeep * 24*60*60*1000`. -/
def recentEntries (persisted : List CachedAnalysis) (now daysToKeep : ℤ) :
    List CachedAnalysis :=
  persisted.filter (fun e => decide (now - daysToKeep * msPerDay ≤ e.cachedAt))

/-- Result of a `saveCached` call: the storage afterwards, the exception that
escaped to the caller (none — every branch catches), and the data passed to
each `setItem` attempt, in order. -/
structure SaveResult where
  storage : CacheStorage
  escaped : Option SetOutcome
  attempts : List (List CachedAnalysis)

/-- Embeds `saveCached` (cacheService.ts lines 64-80) with `clearOldCache(7)`
(lines 182-200) inlined at its only call site inside the quota-recovery
branch: try the write; on a `QuotaExceededError` evict entries older than 7
days (which itself re-saves via `saveCached` when it removed something, hence
the recursion) and retry the write once, swallowing any second failure; on any
other exception just log. The fuel argument bounds the recursion; one oracle
entry is consumed per `setItem` call, so `outcomes.length + 1` fuel always
suffices. -/
def saveCachedAux : ℕ → CacheStorage → ℤ → List CachedAnalysis → SaveResult
  | 0, st, _, _ => ⟨st, none, []⟩
  | fuel + 1, st, now, data =>
    match setItem st data with
    | (st1, none) => ⟨st1, none, [data]⟩
    | (st1, some e) =>
      if e = SetOutcome.quota then
        let recent := recentEntries st1.persisted now 7
        let inner :=
          if recent.length < st1.persisted.length then
            saveCachedAux fuel st1 now recent
          else ⟨st1, none, []⟩
        let retry := setItem inner.storage data
        ⟨retry.1, none, data :: (inner.attempts ++ [data])⟩
      else ⟨st1, none, [data]⟩

/-- `saveCached` entry point with sufficient fuel. -/
def saveCached (st : CacheStorage) (now : ℤ) (data : List CachedAnalysis) :
    SaveResult :=
  saveCachedAux (st.outcomes.length + 1) st now data

/-- Embeds `getCachedAnalysis` (cacheService.ts lines 86-110), keyed by the
already computed hash: find the entry; if absent return null; if expired
(`now > expiresAt`) remove every entry with that hash via `saveCached` and
return null; otherwise return the stored analysis. -/
def getCachedAnalysis (st : CacheStorage) (hash : String) (now : ℤ) :
    Option StructuredVideoAnalysis × CacheStorage :=
  match st.persisted.find? (fun c => c.videoHash == hash) with
  | none => (none, st)
  | some entry =>
    if entry.expiresAt < now then
      (none,
        (saveCached st now
          (st.persisted.filter (fun c => ! (c.videoHash == hash)))).storage)
    else
      (some entry.analysis, st)

/-- Embeds `cacheAnalysis` (cacheService.ts lines 115-143), keyed by the
already computed hash: drop any prior entry with this hash, append a fresh
entry with `cachedAt = now` and `expiresAt = now + 30 days`, and save. -/
def cacheAnalysis (st : CacheStorage) (hash fileName : String) (fileSize : ℕ)
    (videoDuration : ℚ) (analysis : StructuredVideoAnalysis) (now : ℤ) :
    CacheStorage :=
  (saveCached st now
    ((st.persisted.filter (fun c => ! (c.videoHash == hash))) ++
      [{ videoHash := hash
         videoFileName := fileName
         videoSize := fileSize
         videoDuration := videoDuration
         analysis := analysis
         cachedAt := now
         expiresAt := now + 30 * msPerDay }])).storage

/-- At most one live cache entry per video identity. -/
def atMostOnePerIdentity (l : List CachedAnalysis) : Prop :=
  ∀ h : String, (l.filter (fun c => c.videoHash == h)).length ≤ 1

/-! ## Definitions: video hashing (`generateVideoHash`, cacheService.ts
lines 20-46) -/

/-- A `File` descriptor: the hasher reads only `name`, `size` and
`lastModified`; the byte content is never inspected. -/
structure JSFile where
  name : String
  size : ℕ
  lastModified : ℤ
  content : List ℕ

/-- The hashed identity string, line 21:
`` `${file.name}-${file.size}-${file.lastModified}` ``. -/
def hashData (file : JSFile) : String :=
  file.name ++ "-" ++ toString file.size ++ "-" ++ toString file.lastModified

/-- JavaScript `ToInt32` (the effect of `x | 0`, `x & x`, `<<`):
wrap into `[-2^31, 2^31)`. -/
def toInt32 (n : ℤ) : ℤ :=
  let m := n % 4294967296
  if 2147483648 ≤ m then m - 4294967296 else m

/-- One iteration of the fallback hash loop (lines 40-44):
`hash = ((hash << 5) - hash) + charCode; hash = hash & hash`. -/
def hashStep (h : ℤ) (c : ℕ) : ℤ :=
  toInt32 (toInt32 (h * 32) - h + (c : ℤ))

/-- The UTF-16 code units `charCodeAt` iterates over; for the
basic-multilingual-plane strings used here they coincide with the scalar
values Lean's `Char` carries. -/
def codeUnits (s : String) : List ℕ :=
  s.toList.map Char.toNat

/-- The 32-bit signed accumulator the fallback hash loop produces. -/
def fallbackHashInt (data : List ℕ) : ℤ :=
  data.foldl hashStep 0

/-- Lowercase hex digit, as produced by `Number.prototype.toString(16)`. -/
def hexDigitChar (d : ℕ) : Char :=
  if d < 10 then Char.ofNat (48 + d) else Char.ofNat (87 + d)

/-- Big-endian hex digits of `n` without leading zeros; `fuel` bounds the
recursion (`fuel ≥ number of digits` suffices, and `natToHexChars` passes
`n` itself). -/
def natToHexAux : ℕ → ℕ → List Char
  | 0, _ => []
  | fuel + 1, n =>
    if n = 0 then [] else natToHexAux fuel (n / 16) ++ [hexDigitChar (n % 16)]

/-- `n.toString(16)`: `"0"` for zero, otherwise big-endian lowercase hex. -/
def natToHexChars (n : ℕ) : List Char :=
  if n = 0 then ['0'] else natToHexAux n n

/-- `b.toString(16).padStart(2, '0')` for one digest byte (line 30). -/
def hexByteChars (b : ℕ) : List Char :=
  if (natToHexChars b).length < 2 then '0' :: natToHexChars b
  else natToHexChars b

/-- The hex rendering of the digest byte array (lines 29-30). -/
def bytesToHexChars (bs : List ℕ) : List Char :=
  (bs.map hexByteChars).flatten

/-- Embeds `generateVideoHash` (lines 20-46): with `SubtleCrypto` available
the digest bytes of the identity string are hex-encoded; otherwise the
fallback 32-bit string hash is rendered as `Math.abs(hash).toString(16)`.
`digestFn` stands for the platform's SHA-256 (external to the repository);
its contract is a 32-byte output. -/
def generateVideoHash (cryptoAvailable : Bool) (digestFn : String → List ℕ)
    (file : JSFile) : String :=
  if cryptoAvailable then
    String.mk (bytesToHexChars (digestFn (hashData file)))
  else
    String.mk (natToHexChars (fallbackHashInt (codeUnits (hashData file))).natAbs)

/-- The cross-branch determinism property claimed for the hasher: any two
runs (possibly one on the SHA-256 branch and one on the fallback branch, for
any platform digest satisfying the 32-byte contract) agree whenever the
`{name, size, lastModified}` triple agrees. -/
def hashDeterministicAcrossBranches : Prop :=
  ∀ digestFn : String → List ℕ, (∀ s, (digestFn s).length = 32) →
    ∀ (avail1 avail2 : Bool) (f1 f2 : JSFile),
      f1.name = f2.name → f1.size = f2.size → f1.lastModified = f2.lastModified →
      generateVideoHash avail1 digestFn f1 = generateVideoHash avail2 digestFn f2

/-- The fixed-digest-length property claimed for the hasher: one single hex
length shared by all inputs on both branches. -/
def hashFixedLength : Prop :=
  ∃ L : ℕ, ∀ (avail : Bool) (digestFn : String → List ℕ),
    (∀ s, (digestFn s).length = 32 ∧ ∀ b ∈ digestFn s, b < 256) →
    ∀ f : JSFile, (generateVideoHash avail digestFn f).length = L

/-! ## Theorems -/

theorem captureLoop_eq_filterMap (l : List CaptureOutcome) (acc : List String) :
    captureLoop l acc = acc ++ l.filterMap pickFrame := by
  induction l generalizing acc with
  | nil => simp [captureLoop]
  | cons o rest ih =>
    cases o with
    | ok f => simp [captureLoop, ih, pickFrame]
    | err => simp [captureLoop, ih, pickFrame]

/-- C1 (counterexample): for the video duration `D = 0.15` s and the explicit
frame count `N = 2`, the sampler's timestamp list is `[0.05, 0.05]` — the
clamp to `D - 0.1` makes the two timestamps equal, so the sequence is NOT
strictly increasing (even though each entry does equal
`min(i * D/(N+1), D - 0.1)`). -/
theorem sample_timestamps_not_strictly_increasing :
    sampleTimestamps (3/20) (chooseCount 2 (3/20)).toNat = [1/20, 1/20] ∧
    ¬ (sampleTimestamps (3/20) (chooseCount 2 (3/20)).toNat).Pairwise (· < ·) := by
  have heval : sampleTimestamps (3/20) (chooseCount 2 (3/20)).toNat
      = [1/20, 1/20] := by
    have hcount : (chooseCount 2 (3/20)).toNat = 2 := rfl
    rw [hcount]
    norm_num [sampleTimestamps, List.range_succ, min_def]
  refine ⟨heval, ?_⟩
  rw [heval]
  intro h
  exact absurd (List.rel_of_pairwise_cons h (List.mem_singleton.mpr rfl))
    (lt_irrefl (1/20 : ℚ))

/-- C1 (amended): the `i`-th captured timestamp (1-indexed) equals
`min(i * D/(N+1), D - 0.1)` for `i = 1..N`; in addition, the timestamps are
strictly increasing PROVIDED the duration exceeds `(N+1)/20` seconds (which
the original claim omitted: for shorter durations consecutive timestamps are
clamped to the common value `D - 0.1`). -/
theorem sample_timestamps_formula_and_strict_mono (d : ℚ) (n : ℕ)
    (hd : 0 < d) (hstrict : ((n : ℚ) + 1) < 20 * d) :
    (∀ i < n, (sampleTimestamps d n)[i]? =
      some (min (((i : ℚ) + 1) * (d / ((n : ℚ) + 1))) (d - 1/10))) ∧
    (sampleTimestamps d n).Pairwise (· < ·) := by
  have hn1 : (0 : ℚ) < (n : ℚ) + 1 := by positivity
  have hst : 0 < d / ((n : ℚ) + 1) := div_pos hd hn1
  have key : ((n : ℚ) - 1) * (d / ((n : ℚ) + 1)) < d - 1/10 := by
    rw [mul_div_assoc', div_lt_iff₀ hn1]
    nlinarith [hstrict, hd]
  constructor
  · intro i hi
    unfold sampleTimestamps
    rw [List.getElem?_map, List.getElem?_range hi]
    rfl
  · rw [List.pairwise_iff_getElem]
    simp only [sampleTimestamps, List.length_map, List.length_range, List.getElem_map,
      List.getElem_range]
    intro a b ha hb hab
    have han : (a : ℚ) + 1 ≤ (n : ℚ) - 1 := by
      have h2 : a + 2 ≤ n := by omega
      have h3 := (Nat.cast_le (α := ℚ)).mpr h2
      push_cast at h3
      linarith
    have hac : ((a : ℚ) + 1) * (d / ((n : ℚ) + 1)) < d - 1/10 :=
      lt_of_le_of_lt (mul_le_mul_of_nonneg_right han (le_of_lt hst)) key
    have habq : ((a : ℚ) + 1) * (d / ((n : ℚ) + 1)) <
        ((b : ℚ) + 1) * (d / ((n : ℚ) + 1)) := by
      apply mul_lt_mul_of_pos_right _ hst
      have := (Nat.cast_lt (α := ℚ)).mpr hab
      linarith
    rw [min_eq_left (le_of_lt hac)]
    exact lt_min habq hac

/-- Witness for `sample_timestamps_formula_and_strict_mono`: duration 125 s,
adaptive count 10 (so the hypothesis `11 < 2500` holds). -/
theorem sample_timestamps_formula_and_strict_mono_witness :
    (0 : ℚ) < 125 ∧ (((10 : ℕ) : ℚ) + 1) < 20 * 125 ∧
    ((∀ i : ℕ, i < 10 → (sampleTimestamps 125 10)[i]? =
      some (min (((i : ℚ) + 1) * (125 / (((10 : ℕ) : ℚ) + 1))) (125 - 1/10))) ∧
    (sampleTimestamps 125 10).Pairwise (· < ·)) :=
  ⟨by norm_num, by norm_num,
    sample_timestamps_formula_and_strict_mono 125 10 (by norm_num) (by norm_num)⟩

/-- C2 (counterexample): a run whose single per-frame capture fails resolves
successfully with the EMPTY frame list — the all-failures case is a
successful empty sequence, not a `MediaLoadError` rejection. -/
theorem extract_frames_all_failures_resolves_empty :
    extractFrames (some 10) 1 [CaptureOutcome.err] = ExtractResult.resolved [] := by
  norm_num [extractFrames, chooseCount, captureLoop]

/-- C2 (amended): every run of `extractFrames` that gets past metadata
loading with a positive duration and a positive chosen count resolves (never
rejects) with exactly the successful captures in capture order — a
subsequence of at most the target count, which MAY be empty when every
capture fails. -/
theorem extract_frames_resolved_frames (d : ℚ) (numFrames : ℤ)
    (outcomes : List CaptureOutcome) (hd : 0 < d)
    (hn : 0 < chooseCount numFrames d) :
    extractFrames (some d) numFrames outcomes =
      ExtractResult.resolved
        ((outcomes.take (chooseCount numFrames d).toNat).filterMap pickFrame) ∧
    ((outcomes.take (chooseCount numFrames d).toNat).filterMap pickFrame).length
      ≤ (chooseCount numFrames d).toNat := by
  constructor
  · show (if d = 0 then ExtractResult.rejected "metadata"
      else if 0 < chooseCount numFrames d then
        ExtractResult.resolved
          (captureLoop (outcomes.take (chooseCount numFrames d).toNat) [])
      else ExtractResult.rejected "frame count must be positive") = _
    rw [if_neg (ne_of_gt hd), if_pos hn, captureLoop_eq_filterMap]
    simp
  · calc ((outcomes.take (chooseCount numFrames d).toNat).filterMap pickFrame).length
        ≤ (outcomes.take (chooseCount numFrames d).toNat).length :=
          List.length_filterMap_le _ _
      _ ≤ (chooseCount numFrames d).toNat := by
          rw [List.length_take]
          exact min_le_left _ _

/-- Witness for `extract_frames_resolved_frames`: duration 125 s, explicit
count 2, one success and one failure. -/
theorem extract_frames_resolved_frames_witness :
    extractFrames (some 125) 2 [CaptureOutcome.ok "f1", CaptureOutcome.err] =
      ExtractResult.resolved
        (([CaptureOutcome.ok "f1", CaptureOutcome.err].take
            (chooseCount 2 125).toNat).filterMap pickFrame) ∧
    (([CaptureOutcome.ok "f1", CaptureOutcome.err].take
        (chooseCount 2 125).toNat).filterMap pickFrame).length
      ≤ (chooseCount 2 125).toNat :=
  extract_frames_resolved_frames 125 2 _ (by norm_num)
    (by norm_num [chooseCount])

/-- C3: a non-JSON-parsable AI response is normalized into a degraded record:
the raw text becomes `summary`, the four array fields become `"[]"`, the three
object fields become `"{}"`; the parse failure is caught, never propagated
(the normalization is a total function). -/
theorem normalize_non_json_response (textOutput : String)
    (parsed : Option StructuredVideoAnalysis) (h : parsed = none) :
    (normalizeAnalysisResponse textOutput parsed).summary = textOutput ∧
    (normalizeAnalysisResponse textOutput parsed).objects = "[]" ∧
    (normalizeAnalysisResponse textOutput parsed).people = "[]" ∧
    (normalizeAnalysisResponse textOutput parsed).actions = "[]" ∧
    (normalizeAnalysisResponse textOutput parsed).textContent = "[]" ∧
    (normalizeAnalysisResponse textOutput parsed).audioContext = "{}" ∧
    (normalizeAnalysisResponse textOutput parsed).technicalAspects = "{}" ∧
    (normalizeAnalysisResponse textOutput parsed).metadata = "{}" := by
  subst h
  exact ⟨rfl, rfl, rfl, rfl, rfl, rfl, rfl, rfl⟩

/-- Witness for `normalize_non_json_response` at the response `"not json"`. -/
theorem normalize_non_json_response_witness :
    (normalizeAnalysisResponse "not json" none).summary = "not json" ∧
    (normalizeAnalysisResponse "not json" none).objects = "[]" ∧
    (normalizeAnalysisResponse "not json" none).people = "[]" ∧
    (normalizeAnalysisResponse "not json" none).actions = "[]" ∧
    (normalizeAnalysisResponse "not json" none).textContent = "[]" ∧
    (normalizeAnalysisResponse "not json" none).audioContext = "{}" ∧
    (normalizeAnalysisResponse "not json" none).technicalAspects = "{}" ∧
    (normalizeAnalysisResponse "not json" none).metadata = "{}" :=
  normalize_non_json_response "not json" none rfl

theorem saveCached_no_failures (st : CacheStorage) (hio : st.outcomes = [])
    (now : ℤ) (data : List CachedAnalysis) :
    saveCached st now data =
      ⟨⟨data, []⟩, none, [data]⟩ := by
  have hsi : setItem st data = (⟨data, []⟩, none) := by
    unfold setItem
    rw [hio]
  unfold saveCached
  rw [hio]
  show saveCachedAux (0 + 1) st now data = _
  rw [saveCachedAux, hsi]

/-- C4: on a `get` whose stored entry is expired (`expiresAt` strictly before
`now`), the result is absent (`none`, not an error) and the expired entry is
removed from the backing store by that same call; a `get` for an identity
with no entry returns absent with the store untouched. (Stated for an oracle
with no storage failures, so the eager removal write goes through.) -/
theorem get_cached_absent_on_expired_or_missing (st : CacheStorage)
    (hash : String) (now : ℤ) (hio : st.outcomes = []) :
    (∀ e, st.persisted.find? (fun c => c.videoHash == hash) = some e →
      e.expiresAt < now →
      (getCachedAnalysis st hash now).1 = none ∧
      e ∉ (getCachedAnalysis st hash now).2.persisted) ∧
    (st.persisted.find? (fun c => c.videoHash == hash) = none →
      getCachedAnalysis st hash now = (none, st)) := by
  constructor
  · intro e he hexp
    have hsome : getCachedAnalysis st hash now =
        if e.expiresAt < now then
          (none,
            (saveCached st now
              (st.persisted.filter (fun c => ! (c.videoHash == hash)))).storage)
        else (some e.analysis, st) := by
      unfold getCachedAnalysis
      rw [he]
    rw [hsome, if_pos hexp, saveCached_no_failures st hio]
    refine ⟨rfl, ?_⟩
    intro hmem
    have hpe : (e.videoHash == hash) = true := by
      simpa using List.find?_some he
    have h2 := (List.mem_filter.mp hmem).2
    rw [hpe] at h2
    exact absurd h2 (by simp)
  · intro hn
    unfold getCachedAnalysis
    rw [hn]

/-- Witness for `get_cached_absent_on_expired_or_missing`: one entry whose
`expiresAt` is 1 second before `now`. -/
theorem get_cached_absent_witness :
    (getCachedAnalysis
        ⟨[⟨"h1", "v.mp4", 5, 2, degradedAnalysis "x", 0, 9000⟩], []⟩
        "h1" 10000).1 = none ∧
    (⟨"h1", "v.mp4", 5, 2, degradedAnalysis "x", 0, 9000⟩ : CachedAnalysis) ∉
      (getCachedAnalysis
        ⟨[⟨"h1", "v.mp4", 5, 2, degradedAnalysis "x", 0, 9000⟩], []⟩
        "h1" 10000).2.persisted :=
  (get_cached_absent_on_expired_or_missing
      ⟨[⟨"h1", "v.mp4", 5, 2, degradedAnalysis "x", 0, 9000⟩], []⟩
      "h1" 10000 rfl).1
    ⟨"h1", "v.mp4", 5, 2, degradedAnalysis "x", 0, 9000⟩ rfl (by norm_num)

theorem length_filter_filter_le (l : List CachedAnalysis)
    (p q : CachedAnalysis → Bool) :
    ((l.filter q).filter p).length ≤ (l.filter p).length := by
  induction l with
  | nil => simp
  | cons a t ih =>
    by_cases hq : q a <;> by_cases hp : p a <;>
      simp [List.filter_cons, hq, hp, -List.filter_filter] <;> omega

theorem filter_eq_after_filter_ne (l : List CachedAnalysis) (hash : String) :
    (l.filter (fun c => ! (c.videoHash == hash))).filter
      (fun c => c.videoHash == hash) = [] := by
  rw [List.filter_eq_nil_iff]
  intro a ha
  have h2 := (List.mem_filter.mp ha).2
  simp only [Bool.not_eq_true'] at h2
  simp [h2]

theorem mem_filter_ne_hash {l : List CachedAnalysis} {hash : String}
    {a : CachedAnalysis}
    (ha : a ∈ l.filter (fun c => ! (c.videoHash == hash))) :
    (a.videoHash == hash) = false := by
  have h2 := (List.mem_filter.mp ha).2
  simpa using h2

theorem filter_hash_append_single (A : List CachedAnalysis) (hash : String)
    (e2 : CachedAnalysis) (hA : ∀ a ∈ A, (a.videoHash == hash) = false)
    (he2 : (e2.videoHash == hash) = true) :
    (A ++ [e2]).filter (fun c => c.videoHash == hash) = [e2] := by
  rw [List.filter_append]
  have hnil : A.filter (fun c => c.videoHash == hash) = [] := by
    rw [List.filter_eq_nil_iff]
    intro a ha
    simp [hA a ha]
  rw [hnil]
  simp [List.filter_cons, he2]

/-- C5: `cacheAnalysis` preserves the at-most-one-entry-per-identity
invariant, and two sequential writes under the same identity leave exactly
one entry for that identity, holding the second write's data (with
`cachedAt = t2`, `expiresAt = t2 + 30 days`). (Stated for an oracle with no
storage failures, so the writes go through.) -/
theorem cache_analysis_single_entry_per_identity (st : CacheStorage)
    (hash f1 f2 : String) (s1 s2 : ℕ) (d1 d2 : ℚ)
    (a1 a2 : StructuredVideoAnalysis) (t1 t2 : ℤ) (hio : st.outcomes = []) :
    (atMostOnePerIdentity st.persisted →
      atMostOnePerIdentity (cacheAnalysis st hash f1 s1 d1 a1 t1).persisted) ∧
    (cacheAnalysis (cacheAnalysis st hash f1 s1 d1 a1 t1)
        hash f2 s2 d2 a2 t2).persisted.filter (fun c => c.videoHash == hash) =
      [⟨hash, f2, s2, d2, a2, t2, t2 + 30 * msPerDay⟩] := by
  have h1 : cacheAnalysis st hash f1 s1 d1 a1 t1 =
      ⟨(st.persisted.filter (fun c => ! (c.videoHash == hash))) ++
        [(⟨hash, f1, s1, d1, a1, t1, t1 + 30 * msPerDay⟩ : CachedAnalysis)],
        []⟩ := by
    unfold cacheAnalysis
    rw [saveCached_no_failures st hio]
  have h2 : cacheAnalysis (cacheAnalysis st hash f1 s1 d1 a1 t1)
      hash f2 s2 d2 a2 t2 =
      ⟨(((st.persisted.filter (fun c => ! (c.videoHash == hash))) ++
          [(⟨hash, f1, s1, d1, a1, t1, t1 + 30 * msPerDay⟩ :
            CachedAnalysis)]).filter (fun c => ! (c.videoHash == hash))) ++
        [(⟨hash, f2, s2, d2, a2, t2, t2 + 30 * msPerDay⟩ : CachedAnalysis)],
        []⟩ := by
    rw [h1]
    unfold cacheAnalysis
    rw [saveCached_no_failures _ rfl]
  constructor
  · intro hm
    intro hkey
    rw [h1]
    show (((st.persisted.filter (fun c => ! (c.videoHash == hash))) ++
        [(⟨hash, f1, s1, d1, a1, t1, t1 + 30 * msPerDay⟩ :
          CachedAnalysis)]).filter (fun c => c.videoHash == hkey)).length ≤ 1
    rw [List.filter_append, List.length_append]
    by_cases hh : hash = hkey
    · subst hh
      rw [filter_eq_after_filter_ne]
      simp [List.filter_cons]
    · have he1 : (((⟨hash, f1, s1, d1, a1, t1, t1 + 30 * msPerDay⟩ :
          CachedAnalysis)).videoHash == hkey) = false :=
        beq_eq_false_iff_ne.mpr hh
      have hb : (List.filter (fun c => c.videoHash == hkey)
          [(⟨hash, f1, s1, d1, a1, t1, t1 + 30 * msPerDay⟩ : CachedAnalysis)])
            = [] := by
        simp [List.filter_cons, he1]
      rw [hb]
      simp only [List.length_nil, Nat.add_zero]
      exact le_trans (length_filter_filter_le _ _ _) (hm hkey)
  · rw [h2]
    show ((((st.persisted.filter (fun c => ! (c.videoHash == hash))) ++
        [(⟨hash, f1, s1, d1, a1, t1, t1 + 30 * msPerDay⟩ :
          CachedAnalysis)]).filter (fun c => ! (c.videoHash == hash))) ++
        [(⟨hash, f2, s2, d2, a2, t2, t2 + 30 * msPerDay⟩ :
          CachedAnalysis)]).filter (fun c => c.videoHash == hash) =
      [(⟨hash, f2, s2, d2, a2, t2, t2 + 30 * msPerDay⟩ : CachedAnalysis)]
    apply filter_hash_append_single
    · intro a ha
      exact mem_filter_ne_hash ha
    · simp

/-- Witness for `cache_analysis_single_entry_per_identity`: empty initial
store, two writes under hash `"h1"`. -/
theorem cache_analysis_single_entry_witness :
    (atMostOnePerIdentity (⟨[], []⟩ : CacheStorage).persisted →
      atMostOnePerIdentity
        (cacheAnalysis ⟨[], []⟩ "h1" "a.mp4" 1 1 (degradedAnalysis "x") 0).persisted) ∧
    (cacheAnalysis (cacheAnalysis ⟨[], []⟩ "h1" "a.mp4" 1 1 (degradedAnalysis "x") 0)
        "h1" "b.mp4" 2 2 (degradedAnalysis "y") 5).persisted.filter
          (fun c => c.videoHash == "h1") =
      [⟨"h1", "b.mp4", 2, 2, degradedAnalysis "y", 5, 5 + 30 * msPerDay⟩] :=
  cache_analysis_single_entry_per_identity ⟨[], []⟩ "h1" "a.mp4" "b.mp4"
    1 2 1 2 (degradedAnalysis "x") (degradedAnalysis "y") 0 5 rfl

theorem saveCachedAux_escaped (fuel : ℕ) (st : CacheStorage) (now : ℤ)
    (data : List CachedAnalysis) :
    (saveCachedAux fuel st now data).escaped = none := by
  cases fuel with
  | zero => rfl
  | succ fuel =>
    obtain ⟨p, oc⟩ := st
    cases oc with
    | nil => rfl
    | cons o rest => cases o <;> rfl

theorem saveCachedAux_attempts (fuel : ℕ) :
    ∀ (st : CacheStorage) (now : ℤ) (data : List CachedAnalysis),
    ∀ w ∈ (saveCachedAux fuel st now data).attempts,
      w = data ∨ w = recentEntries st.persisted now 7 := by
  induction fuel with
  | zero =>
    intro st now data w hw
    simp [saveCachedAux] at hw
  | succ fuel ih =>
    intro st now data w hw
    obtain ⟨p, oc⟩ := st
    cases oc with
    | nil =>
      have hred : saveCachedAux (fuel + 1) ⟨p, []⟩ now data
          = ⟨⟨data, []⟩, none, [data]⟩ := rfl
      rw [hred] at hw
      simp at hw
      exact Or.inl hw
    | cons o rest =>
      cases o with
      | ok =>
        have hred : saveCachedAux (fuel + 1) ⟨p, SetOutcome.ok :: rest⟩ now data
            = ⟨⟨data, rest⟩, none, [data]⟩ := rfl
        rw [hred] at hw
        simp at hw
        exact Or.inl hw
      | other =>
        have hred : saveCachedAux (fuel + 1) ⟨p, SetOutcome.other :: rest⟩ now data
            = ⟨⟨p, rest⟩, none, [data]⟩ := rfl
        rw [hred] at hw
        simp at hw
        exact Or.inl hw
      | quota =>
        have hred : saveCachedAux (fuel + 1) ⟨p, SetOutcome.quota :: rest⟩ now data
            = ⟨(setItem (if (recentEntries p now 7).length < p.length then
                  saveCachedAux fuel ⟨p, rest⟩ now (recentEntries p now 7)
                else ⟨⟨p, rest⟩, none, []⟩).storage data).1, none,
                data :: ((if (recentEntries p now 7).length < p.length then
                  saveCachedAux fuel ⟨p, rest⟩ now (recentEntries p now 7)
                else ⟨⟨p, rest⟩, none, []⟩).attempts ++ [data])⟩ := rfl
        rw [hred] at hw
        simp only [List.mem_cons, List.mem_append] at hw
        rcases hw with hw | hw
        · exact Or.inl hw
        rcases hw with hw | hw
        · by_cases hlt : (recentEntries p now 7).length < p.length
          · rw [if_pos hlt] at hw
            rcases ih ⟨p, rest⟩ now (recentEntries p now 7) w hw with h | h
            · exact Or.inr h
            · exact Or.inr h
          · rw [if_neg hlt] at hw
            simp at hw
        · simp at hw
          exact Or.inl hw

/-- C6: `saveCached` never lets an exception escape (for ANY storage
behaviour), and when the first write fails with `QuotaExceededError`
("backing store full") it performs the 7-day eviction — every intermediate
write carries the store filtered down to entries of the last 7 days — and
then retries the original write exactly once (the attempt trace is the
original attempt, the eviction writes, then exactly one retry with the same
data); a failing retry is swallowed. -/
theorem save_cached_quota_recovery (st : CacheStorage) (now : ℤ)
    (data : List CachedAnalysis)
    (hq : st.outcomes.head? = some SetOutcome.quota) :
    (∀ (st2 : CacheStorage) (now2 : ℤ) (data2 : List CachedAnalysis),
      (saveCached st2 now2 data2).escaped = none) ∧
    ∃ tr, (saveCached st now data).attempts = data :: (tr ++ [data]) ∧
      ∀ w ∈ tr, w = recentEntries st.persisted now 7 := by
  refine ⟨fun st2 now2 data2 => saveCachedAux_escaped _ st2 now2 data2, ?_⟩
  obtain ⟨p, oc⟩ := st
  cases oc with
  | nil => simp at hq
  | cons o rest =>
    have hoq : o = SetOutcome.quota := by simpa using hq
    subst hoq
    refine ⟨(if (recentEntries p now 7).length < p.length then
        saveCachedAux (rest.length + 1) ⟨p, rest⟩ now (recentEntries p now 7)
      else ⟨⟨p, rest⟩, none, []⟩).attempts, rfl, ?_⟩
    by_cases hlt : (recentEntries p now 7).length < p.length
    · rw [if_pos hlt]
      intro w hw
      rcases saveCachedAux_attempts (rest.length + 1) ⟨p, rest⟩ now
          (recentEntries p now 7) w hw with h | h
      · exact h
      · exact h
    · rw [if_neg hlt]
      intro w hw
      simp at hw

/-- Witness for `save_cached_quota_recovery`: one stale entry (cached at
epoch 0), `now` past the 7-day window, oracle `[quota, ok]` (first write
fails for lack of space, the post-eviction writes succeed). -/
theorem save_cached_quota_recovery_witness :
    (∀ (st2 : CacheStorage) (now2 : ℤ) (data2 : List CachedAnalysis),
      (saveCached st2 now2 data2).escaped = none) ∧
    ∃ tr, (saveCached
        ⟨[⟨"old", "o.mp4", 1, 1, degradedAnalysis "o", 0, 100⟩],
          [SetOutcome.quota, SetOutcome.ok]⟩ 700000000
        [⟨"new", "n.mp4", 2, 2, degradedAnalysis "n", 700000000, 800000000⟩]).attempts
      = [⟨"new", "n.mp4", 2, 2, degradedAnalysis "n", 700000000, 800000000⟩] ::
        (tr ++ [[⟨"new", "n.mp4", 2, 2, degradedAnalysis "n", 700000000, 800000000⟩]]) ∧
      ∀ w ∈ tr, w = recentEntries
        [⟨"old", "o.mp4", 1, 1, degradedAnalysis "o", 0, 100⟩] 700000000 7 :=
  save_cached_quota_recovery
    ⟨[⟨"old", "o.mp4", 1, 1, degradedAnalysis "o", 0, 100⟩],
      [SetOutcome.quota, SetOutcome.ok]⟩ 700000000
    [⟨"new", "n.mp4", 2, 2, degradedAnalysis "n", 700000000, 800000000⟩] rfl

theorem toInt32_range (n : ℤ) :
    -2147483648 ≤ toInt32 n ∧ toInt32 n < 2147483648 := by
  unfold toInt32
  simp only []
  split_ifs with h <;> omega

theorem foldl_hashStep_range (l : List ℕ) (h : ℤ)
    (hh : -2147483648 ≤ h ∧ h < 2147483648) :
    -2147483648 ≤ l.foldl hashStep h ∧ l.foldl hashStep h < 2147483648 := by
  induction l generalizing h with
  | nil => simpa using hh
  | cons c t ih =>
    rw [List.foldl_cons]
    exact ih (hashStep h c) (toInt32_range _)

theorem fallbackHashInt_range (data : List ℕ) :
    -2147483648 ≤ fallbackHashInt data ∧ fallbackHashInt data < 2147483648 :=
  foldl_hashStep_range data 0 (by norm_num)

theorem natToHexAux_length_le (fuel n k : ℕ) (hn : n < 16 ^ k) :
    (natToHexAux fuel n).length ≤ k := by
  induction fuel generalizing n k with
  | zero => simp [natToHexAux]
  | succ fuel ih =>
    by_cases h0 : n = 0
    · simp [natToHexAux, h0]
    · rw [natToHexAux, if_neg h0]
      cases k with
      | zero =>
        exfalso
        have : n < 1 := by simpa using hn
        omega
      | succ k =>
        have hdiv : n / 16 < 16 ^ k := by
          rw [pow_succ, mul_comm] at hn
          exact Nat.div_lt_of_lt_mul hn
        have := ih (n / 16) k hdiv
        simp only [List.length_append, List.length_cons, List.length_nil]
        omega

theorem natToHexChars_length_le (n k : ℕ) (hk : 1 ≤ k) (hn : n < 16 ^ k) :
    (natToHexChars n).length ≤ k := by
  unfold natToHexChars
  split_ifs with h0
  · simpa using hk
  · exact natToHexAux_length_le n n k hn

theorem natToHexChars_length_pos (n : ℕ) : 1 ≤ (natToHexChars n).length := by
  unfold natToHexChars
  split_ifs with h0
  · simp
  · obtain ⟨m, rfl⟩ := Nat.exists_eq_succ_of_ne_zero h0
    rw [natToHexAux, if_neg h0]
    simp

theorem hexByteChars_length_ge (b : ℕ) : 2 ≤ (hexByteChars b).length := by
  have hpos := natToHexChars_length_pos b
  unfold hexByteChars
  split_ifs with h
  · simp only [List.length_cons]
    omega
  · omega

theorem hexByteChars_length_eq (b : ℕ) (hb : b < 256) :
    (hexByteChars b).length = 2 := by
  have h256 : (256 : ℕ) = 16 ^ 2 := by norm_num
  have hle : (natToHexChars b).length ≤ 2 :=
    natToHexChars_length_le b 2 (by norm_num) (h256 ▸ hb)
  have hpos := natToHexChars_length_pos b
  unfold hexByteChars
  split_ifs with h
  · simp only [List.length_cons]
    omega
  · omega

theorem bytesToHexChars_length_ge (bs : List ℕ) :
    2 * bs.length ≤ (bytesToHexChars bs).length := by
  induction bs with
  | nil => simp [bytesToHexChars]
  | cons b t ih =>
    have hb := hexByteChars_length_ge b
    simp only [bytesToHexChars, List.map_cons, List.flatten_cons,
      List.length_append, List.length_cons] at *
    omega

theorem bytesToHexChars_length_eq (bs : List ℕ) (h : ∀ b ∈ bs, b < 256) :
    (bytesToHexChars bs).length = 2 * bs.length := by
  induction bs with
  | nil => simp [bytesToHexChars]
  | cons b t ih =>
    have hb := hexByteChars_length_eq b (h b (by simp))
    have ht := ih (fun x hx => h x (by simp [hx]))
    simp only [bytesToHexChars, List.map_cons, List.flatten_cons,
      List.length_append, List.length_cons] at *
    omega

theorem fallback_hash_length (data : List ℕ) :
    1 ≤ (natToHexChars (fallbackHashInt data).natAbs).length ∧
    (natToHexChars (fallbackHashInt data).natAbs).length ≤ 8 := by
  refine ⟨natToHexChars_length_pos _, ?_⟩
  apply natToHexChars_length_le _ 8 (by norm_num)
  have hr := fallbackHashInt_range data
  have habs : (fallbackHashInt data).natAbs ≤ 2147483648 := by omega
  have h16 : (16 : ℕ) ^ 8 = 4294967296 := by norm_num
  omega

/-- C7 (counterexample): the hasher is NOT deterministic across the two
branches: for the 32-byte digest interface and the file
`{name := "a", size := 0, lastModified := 0}`, the SHA-256 branch renders 64
hex characters while the fallback branch renders `"56c1667"` — a process
with `SubtleCrypto` and a process without it produce different digests for
the same `{name, size, lastModified}` triple. -/
theorem video_hash_not_deterministic_across_branches :
    ¬ hashDeterministicAcrossBranches := by
  intro h
  have heq := h (fun _ => List.replicate 32 0) (fun s => by simp) true false
    ⟨"a", 0, 0, []⟩ ⟨"a", 0, 0, []⟩ rfl rfl rfl
  exact absurd heq (by decide)

/-- C7 (amended): each branch of the hasher is deterministic — the digest
depends only on the `{name, size, lastModified}` triple (not on the file
content), so two runs on the SAME branch with the same platform digest agree
whenever the triples agree — but the two branches disagree with each other:
for any platform digest honouring the 32-byte contract, the SHA-256 branch
and the fallback branch give different digests (already by length: 64 hex
characters versus at most 8). -/
theorem video_hash_branch_deterministic (avail : Bool)
    (digestFn : String → List ℕ) (f1 f2 : JSFile)
    (hn : f1.name = f2.name) (hs : f1.size = f2.size)
    (hm : f1.lastModified = f2.lastModified) :
    generateVideoHash avail digestFn f1 = generateVideoHash avail digestFn f2 ∧
    (∀ dfn : String → List ℕ, (∀ s, (dfn s).length = 32) →
      generateVideoHash true dfn ⟨"a", 0, 0, []⟩ ≠
        generateVideoHash false dfn ⟨"a", 0, 0, []⟩) := by
  constructor
  · unfold generateVideoHash hashData
    rw [hn, hs, hm]
  · intro dfn h32 heq
    have e1 : generateVideoHash true dfn ⟨"a", 0, 0, []⟩ =
        String.mk (bytesToHexChars (dfn (hashData ⟨"a", 0, 0, []⟩))) := rfl
    have e2 : generateVideoHash false dfn ⟨"a", 0, 0, []⟩ =
        String.mk (natToHexChars
          (fallbackHashInt (codeUnits (hashData ⟨"a", 0, 0, []⟩))).natAbs) := rfl
    rw [e1, e2] at heq
    have hL : bytesToHexChars (dfn (hashData ⟨"a", 0, 0, []⟩)) =
        natToHexChars
          (fallbackHashInt (codeUnits (hashData ⟨"a", 0, 0, []⟩))).natAbs :=
      congrArg String.data heq
    have h1 := bytesToHexChars_length_ge (dfn (hashData ⟨"a", 0, 0, []⟩))
    rw [h32 _] at h1
    have h2 := (fallback_hash_length (codeUnits (hashData ⟨"a", 0, 0, []⟩))).2
    rw [hL] at h1
    omega

/-- Witness for `video_hash_branch_deterministic`: two files sharing the
triple `("a", 3, 7)` but with different content, on the fallback branch. -/
theorem video_hash_branch_deterministic_witness :
    generateVideoHash false (fun _ => []) ⟨"a", 3, 7, [1]⟩ =
      generateVideoHash false (fun _ => []) ⟨"a", 3, 7, [2]⟩ ∧
    (∀ dfn : String → List ℕ, (∀ s, (dfn s).length = 32) →
      generateVideoHash true dfn ⟨"a", 0, 0, []⟩ ≠
        generateVideoHash false dfn ⟨"a", 0, 0, []⟩) :=
  video_hash_branch_deterministic false (fun _ => []) ⟨"a", 3, 7, [1]⟩
    ⟨"a", 3, 7, [2]⟩ rfl rfl rfl

/-- C8 (counterexample): the digest length is NOT one fixed length across
inputs: on the fallback branch the file `("a", 0, 0)` hashes to the 7-digit
`"56c1667"` while `("a", 0, 10)` hashes to the 8-digit `"57e94938"`
(`Math.abs(hash).toString(16)` is not padded). -/
theorem video_hash_length_not_fixed : ¬ hashFixedLength := by
  rintro ⟨L, hL⟩
  have hcontract : ∀ s, ((fun _ : String => List.replicate 32 0) s).length = 32 ∧
      ∀ b ∈ (fun _ : String => List.replicate 32 0) s, b < 256 := by
    intro s
    refine ⟨by simp, ?_⟩
    intro b hb
    rw [List.eq_of_mem_replicate hb]
    norm_num
  have h1 := hL false (fun _ => List.replicate 32 0) hcontract ⟨"a", 0, 0, []⟩
  have h2 := hL false (fun _ => List.replicate 32 0) hcontract ⟨"a", 0, 10, []⟩
  have e1 : (generateVideoHash false (fun _ => List.replicate 32 0)
      ⟨"a", 0, 0, []⟩).length = 7 := by decide
  have e2 : (generateVideoHash false (fun _ => List.replicate 32 0)
      ⟨"a", 0, 10, []⟩).length = 8 := by decide
  have hL7 : (7 : ℕ) = L := e1.symm.trans h1
  have hL8 : (8 : ℕ) = L := e2.symm.trans h2
  omega

/-- C8 (amended): the SHA-256 branch always yields exactly 64 hex characters
(for any platform digest honouring the 32-byte contract), while the fallback
branch yields between 1 and 8 hex characters, varying with the input — so
the digest length is fixed per branch only on the crypto branch. -/
theorem video_hash_branch_lengths (digestFn : String → List ℕ)
    (hd : ∀ s, (digestFn s).length = 32 ∧ ∀ b ∈ digestFn s, b < 256)
    (f : JSFile) :
    (generateVideoHash true digestFn f).length = 64 ∧
    (1 ≤ (generateVideoHash false digestFn f).length ∧
      (generateVideoHash false digestFn f).length ≤ 8) := by
  constructor
  · show (bytesToHexChars (digestFn (hashData f))).length = 64
    rw [bytesToHexChars_length_eq _ (hd _).2, (hd _).1]
  · show 1 ≤ (natToHexChars
        (fallbackHashInt (codeUnits (hashData f))).natAbs).length ∧
      (natToHexChars (fallbackHashInt (codeUnits (hashData f))).natAbs).length ≤ 8
    exact fallback_hash_length _

/-- Witness for `video_hash_branch_lengths` at the all-zero digest and the
file `("a", 0, 0)`. -/
theorem video_hash_branch_lengths_witness :
    (generateVideoHash true (fun _ => List.replicate 32 0)
      ⟨"a", 0, 0, []⟩).length = 64 ∧
    (1 ≤ (generateVideoHash false (fun _ => List.replicate 32 0)
      ⟨"a", 0, 0, []⟩).length ∧
      (generateVideoHash false (fun _ => List.replicate 32 0)
        ⟨"a", 0, 0, []⟩).length ≤ 8) :=
  video_hash_branch_lengths (fun _ => List.replicate 32 0)
    (fun s => ⟨by simp, fun b hb => by
      rw [List.eq_of_mem_replicate hb]; norm_num⟩) ⟨"a", 0, 0, []⟩

theorem jsRound_le_of_le (q : ℚ) (m : ℤ) (h : q ≤ m) : jsRound q ≤ m := by
  unfold jsRound
  have h1 : q + 1/2 < (m : ℚ) + 1 := by linarith
  have h2 : ⌊q + 1/2⌋ < m + 1 := by
    rw [Int.floor_lt]
    push_cast
    linarith
  omega

theorem jsRound_abs (q : ℚ) : |(jsRound q : ℚ) - q| ≤ 1/2 := by
  unfold jsRound
  have h1 : ((⌊q + 1/2⌋ : ℤ) : ℚ) ≤ q + 1/2 := Int.floor_le _
  have h2 : q + 1/2 < ((⌊q + 1/2⌋ : ℤ) : ℚ) + 1 := Int.lt_floor_add_one _
  rw [abs_le]
  constructor <;> linarith

/-- C9 (counterexample): for a 600×100 source frame and
`maxDimensionPixels = 100`, the output is 100×17, and the claimed
reconstruction bound fails: `round(w/h * outputHeight) = round(6 * 17) = 102`
differs from `outputWidth = 100` by 2 pixels, not within 1. -/
theorem resize_aspect_reconstruction_off_by_two :
    resizeDimensions 100 600 100 = (100, 17) ∧
    jsRound ((600 : ℚ) / (100 : ℚ) * ((resizeDimensions 100 600 100).2 : ℚ)) = 102 ∧
    ¬ (jsRound ((600 : ℚ) / (100 : ℚ) * ((resizeDimensions 100 600 100).2 : ℚ)) -
        (resizeDimensions 100 600 100).1).natAbs ≤ 1 := by
  have e : resizeDimensions 100 600 100 = (100, 17) := by
    unfold resizeDimensions jsRound
    norm_num
  refine ⟨e, ?_, ?_⟩ <;> rw [e] <;> unfold jsRound <;> norm_num

/-- C9 (amended): dimensions within `maxDimensionPixels` pass through
unchanged (no upscaling); when either dimension exceeds it, the longer output
side equals `maxDimensionPixels` and the other side is `Math.round` of the
exact aspect-preserving value — within half a pixel of `maxSize*h/w`
(landscape) resp. `maxSize*w/h` (portrait/square). The original claim's
reconstruction bound `|round(w/h * outH) - outW| ≤ 1` does not hold in
general (see the counterexample); the rounding guarantee lives on the
shorter side. -/
theorem resize_no_upscale_and_aspect (maxSize w h : ℤ)
    (hw : 0 < w) (hh : 0 < h) (hm : 0 < maxSize) :
    (w ≤ maxSize ∧ h ≤ maxSize → resizeDimensions maxSize w h = (w, h)) ∧
    (maxSize < w ∨ maxSize < h →
      max (resizeDimensions maxSize w h).1 (resizeDimensions maxSize w h).2
        = maxSize ∧
      (h < w →
        resizeDimensions maxSize w h =
          (maxSize, jsRound ((maxSize : ℚ) * (h : ℚ) / (w : ℚ))) ∧
        |((resizeDimensions maxSize w h).2 : ℚ) -
          (maxSize : ℚ) * (h : ℚ) / (w : ℚ)| ≤ 1/2) ∧
      (w ≤ h →
        resizeDimensions maxSize w h =
          (jsRound ((maxSize : ℚ) * (w : ℚ) / (h : ℚ)), maxSize) ∧
        |((resizeDimensions maxSize w h).1 : ℚ) -
          (maxSize : ℚ) * (w : ℚ) / (h : ℚ)| ≤ 1/2)) := by
  constructor
  · rintro ⟨h1, h2⟩
    unfold resizeDimensions
    rw [if_neg (by omega)]
  · intro hbig
    by_cases hcase : h < w
    · have e : resizeDimensions maxSize w h =
          (maxSize, jsRound ((maxSize : ℚ) * (h : ℚ) / (w : ℚ))) := by
        unfold resizeDimensions
        rw [if_pos hbig, if_pos hcase, div_div_eq_mul_div]
      have hwq : (0 : ℚ) < (w : ℚ) := by exact_mod_cast hw
      have hmq : (0 : ℚ) < (maxSize : ℚ) := by exact_mod_cast hm
      have hv : (maxSize : ℚ) * (h : ℚ) / (w : ℚ) < (maxSize : ℚ) := by
        rw [div_lt_iff₀ hwq]
        have hhw : (h : ℚ) < (w : ℚ) := by exact_mod_cast hcase
        nlinarith
      have hr2 : jsRound ((maxSize : ℚ) * (h : ℚ) / (w : ℚ)) ≤ maxSize :=
        jsRound_le_of_le _ _ (le_of_lt hv)
      refine ⟨?_, ?_, ?_⟩
      · rw [e]
        exact max_eq_left hr2
      · intro _
        exact ⟨e, by rw [e]; exact jsRound_abs _⟩
      · intro hle
        exfalso
        omega
    · push_neg at hcase
      have e : resizeDimensions maxSize w h =
          (jsRound ((maxSize : ℚ) * (w : ℚ) / (h : ℚ)), maxSize) := by
        unfold resizeDimensions
        rw [if_pos hbig, if_neg (by omega), ← mul_div_assoc]
      have hhq : (0 : ℚ) < (h : ℚ) := by exact_mod_cast hh
      have hmq : (0 : ℚ) < (maxSize : ℚ) := by exact_mod_cast hm
      have hv : (maxSize : ℚ) * (w : ℚ) / (h : ℚ) ≤ (maxSize : ℚ) := by
        rw [div_le_iff₀ hhq]
        have hwh : (w : ℚ) ≤ (h : ℚ) := by exact_mod_cast hcase
        nlinarith
      have hr1 : jsRound ((maxSize : ℚ) * (w : ℚ) / (h : ℚ)) ≤ maxSize :=
        jsRound_le_of_le _ _ hv
      refine ⟨?_, ?_, ?_⟩
      · rw [e]
        exact max_eq_right hr1
      · intro hlt
        exfalso
        omega
      · intro _
        exact ⟨e, by rw [e]; exact jsRound_abs _⟩

/-- Witness for `resize_no_upscale_and_aspect` at a 1920×1080 frame with
`maxDimensionPixels = 1536`. -/
theorem resize_no_upscale_and_aspect_witness :
    ((1920 : ℤ) ≤ 1536 ∧ (1080 : ℤ) ≤ 1536 →
      resizeDimensions 1536 1920 1080 = (1920, 1080)) ∧
    ((1536 : ℤ) < 1920 ∨ (1536 : ℤ) < 1080 →
      max (resizeDimensions 1536 1920 1080).1 (resizeDimensions 1536 1920 1080).2
        = 1536 ∧
      ((1080 : ℤ) < 1920 →
        resizeDimensions 1536 1920 1080 =
          (1536, jsRound ((1536 : ℚ) * ((1080 : ℤ) : ℚ) / ((1920 : ℤ) : ℚ))) ∧
        |((resizeDimensions 1536 1920 1080).2 : ℚ) -
          (1536 : ℚ) * ((1080 : ℤ) : ℚ) / ((1920 : ℤ) : ℚ)| ≤ 1/2) ∧
      ((1920 : ℤ) ≤ 1080 →
        resizeDimensions 1536 1920 1080 =
          (jsRound ((1536 : ℚ) * ((1920 : ℤ) : ℚ) / ((1080 : ℤ) : ℚ)), 1536) ∧
        |((resizeDimensions 1536 1920 1080).1 : ℚ) -
          (1536 : ℚ) * ((1920 : ℤ) : ℚ) / ((1080 : ℤ) : ℚ)| ≤ 1/2)) :=
  resize_no_upscale_and_aspect 1536 1920 1080 (by norm_num) (by norm_num)
    (by norm_num)

/-- C10: the adaptive frame count is monotonically non-decreasing in duration,
and a 125-second video falls in the medium bucket of 10 frames. -/
theorem adaptive_frame_count_monotone (d1 d2 : ℚ) (h : d1 ≤ d2) :
    getAdaptiveFrameCount d1 ≤ getAdaptiveFrameCount d2 ∧
    getAdaptiveFrameCount 125 = 10 := by
  constructor
  · unfold getAdaptiveFrameCount
    split_ifs <;> first | rfl | omega | linarith
  · rfl

/-- Witness for `adaptive_frame_count_monotone` at durations 10 and 200. -/
theorem adaptive_frame_count_monotone_witness :
    getAdaptiveFrameCount 10 ≤ getAdaptiveFrameCount 200 ∧
    getAdaptiveFrameCount 125 = 10 :=
  adaptive_frame_count_monotone 10 200 (by norm_num)
